import Mathlib

/- Verification development for the parse aggregation and caching engine of
   remote-party-finder (src/server).  The Rust source is shallowly embedded:
   machine floats (f32 percentiles) are modelled as rationals, timestamps as
   integers counting seconds, MongoDB documents and HashMaps as functions into
   Option, and fallible operations as Except.  Definitions mirror the source
   files named in their doc comments. -/

namespace RPF

/-- Per-encounter cached score (`EncounterParse` in src/server/src/mongo.rs and
src/server/src/fflogs/cache.rs): best percentile (an f32, modelled as a
rational; -1 is the "no log" sentinel) and a job id. -/
structure EncounterParse where
  percentile : ℚ
  job_id : Nat
deriving DecidableEq

/-- Per-zone cache value (`ZoneCache` in src/server/src/mongo.rs): fetch
timestamp (seconds) and the encounter map keyed by `encounter_id.to_string()`. -/
structure ZoneCache where
  fetched_at : ℤ
  encounters : String → Option EncounterParse

/-- Cache document, one per player (`ParseCacheDoc` in src/server/src/mongo.rs):
content id and the zone map keyed by `zone_id.to_string()`. -/
structure ParseCacheDoc where
  content_id : ℤ
  zones : String → Option ZoneCache

/-- The parse-cache MongoDB collection, as a map from the `content_id` filter
value to the (at most one) matching document. -/
abbrev Store := ℤ → Option ParseCacheDoc

/-- `is_zone_cache_expired` (src/server/src/mongo.rs lines 353-356, duplicated
in src/server/src/fflogs/cache.rs lines 41-44): the entry is expired iff
`fetched_at < now - 24h`; 24 hours is 86400 seconds. -/
def is_zone_cache_expired (now : ℤ) (zone_cache : ZoneCache) : Bool :=
  decide (zone_cache.fetched_at < now - 86400)

/-- The string key under which a zone is stored (`zone_id.to_string()`). -/
def zoneKey (zone_id : Nat) : String := toString zone_id

/-- Point update of a zone map at the key of `zone_id` (the effect of the
`$set` of field `zones.<zone_id>`). -/
def setZone (zones : String → Option ZoneCache) (zone_id : Nat) (zc : ZoneCache) :
    String → Option ZoneCache :=
  fun k => if k = zoneKey zone_id then some zc else zones k

/-- `upsert_zone_cache` (src/server/src/mongo.rs lines 326-350): an
`update_one` with filter `content_id`, `$set` of the single field
`zones.<zone_id>` and `$setOnInsert` of `content_id`, with upsert enabled. -/
def upsert_zone_cache (st : Store) (content_id : ℤ) (zone_id : Nat)
    (zone_cache : ZoneCache) : Store :=
  fun c =>
    if c = content_id then
      match st content_id with
      | some d => some ⟨d.content_id, setZone d.zones zone_id zone_cache⟩
      | none => some ⟨content_id, setZone (fun _ => none) zone_id zone_cache⟩
    else st c

/-- `get_zone_cache` (src/server/src/mongo.rs lines 248-263): `find_one` on
`content_id`, then look the zone key up in the document's zone map. -/
def get_zone_cache (st : Store) (content_id : ℤ) (zone_id : Nat) : Option ZoneCache :=
  (st content_id).bind fun d => d.zones (zoneKey zone_id)

/-- The zone subtree of one player's document at an arbitrary string key
(the raw `zones.<key>` lookup underlying `get_zone_cache`). -/
def docZone (st : Store) (content_id : ℤ) (k : String) : Option ZoneCache :=
  (st content_id).bind fun d => d.zones k

/-- `get_zone_caches` (src/server/src/mongo.rs lines 266-294): batched lookup,
`find` with `content_id $in ids` keeping only documents holding the zone key.
Modelled as the restriction of the store to the requested ids. -/
def get_zone_caches (st : Store) (content_ids : List ℤ) (zone_id : Nat) :
    ℤ → Option ZoneCache :=
  fun c => if c ∈ content_ids then get_zone_cache st c zone_id else none

/-- `get_parse_docs` (src/server/src/mongo.rs lines 297-321): batched whole-
document lookup for the given content ids. -/
def get_parse_docs (st : Store) (content_ids : List ℤ) : ℤ → Option ParseCacheDoc :=
  fun c => if c ∈ content_ids then st c else none

/-- C1: `is_zone_cache_expired` returns true iff `now - fetched_at > 24h`
(86400 s); an entry fetched 24h1s ago is stale, one fetched 23h59m59s ago is
not, and one at exactly the 24-hour boundary is not stale. -/
theorem staleness_boundary_spec (now t : ℤ) (encs : String → Option EncounterParse) :
    (is_zone_cache_expired now ⟨t, encs⟩ = true ↔ now - t > 86400)
    ∧ is_zone_cache_expired now ⟨now - 86401, encs⟩ = true
    ∧ is_zone_cache_expired now ⟨now - 86399, encs⟩ = false
    ∧ is_zone_cache_expired now ⟨now - 86400, encs⟩ = false := by
  refine ⟨?_, ?_, ?_, ?_⟩ <;> simp [is_zone_cache_expired] <;> omega

/-- C2: the zone-cache upsert replaces that zone's entire subtree for that
player and leaves every other zone of that player and every other player's
document unchanged; in particular a second write to the same (player, zone)
fully replaces the first. -/
theorem zone_cache_full_replace_spec (st : Store) (cid : ℤ) (zid : Nat)
    (zc1 zc2 : ZoneCache) :
    get_zone_cache (upsert_zone_cache (upsert_zone_cache st cid zid zc1) cid zid zc2)
        cid zid = some zc2
    ∧ (∀ k : String, k ≠ zoneKey zid →
        docZone (upsert_zone_cache (upsert_zone_cache st cid zid zc1) cid zid zc2) cid k
          = docZone st cid k)
    ∧ (∀ c : ℤ, c ≠ cid →
        (upsert_zone_cache (upsert_zone_cache st cid zid zc1) cid zid zc2) c = st c) := by
  refine ⟨?_, ?_, ?_⟩
  · simp only [get_zone_cache, upsert_zone_cache, if_pos rfl]
    cases st cid <;> simp [setZone]
  · intro k hk
    simp only [docZone, upsert_zone_cache, if_pos rfl]
    cases st cid <;> simp [setZone, hk]
  · intro c hc
    simp [upsert_zone_cache, hc]

/-- Empty store used by the C2 witness. -/
def c2Store0 : Store := fun _ => none

/-- First written zone entry of the C2 witness: encounters {101 ↦ 80}. -/
def c2Zc1 : ZoneCache :=
  ⟨100, fun k => if k = "101" then some ⟨80, 0⟩ else none⟩

/-- Second written zone entry of the C2 witness: encounters {102 ↦ 40}. -/
def c2Zc2 : ZoneCache :=
  ⟨200, fun k => if k = "102" then some ⟨40, 0⟩ else none⟩

/-- The C2 witness store: player 7, zone 73 written twice. -/
def c2Store2 : Store :=
  upsert_zone_cache (upsert_zone_cache c2Store0 7 73 c2Zc1) 7 73 c2Zc2

/-- Witness for C2 at player 7, zone 73: the re-written zone holds exactly the
second entry (old key 101 gone since `c2Zc2` maps it to none), zone "59" and
player 8 are untouched. -/
theorem zone_cache_full_replace_witness :
    get_zone_cache c2Store2 7 73 = some c2Zc2
    ∧ docZone c2Store2 7 "59" = docZone c2Store0 7 "59"
    ∧ c2Store2 8 = c2Store0 8 :=
  ⟨(zone_cache_full_replace_spec c2Store0 7 73 c2Zc1 c2Zc2).1,
   (zone_cache_full_replace_spec c2Store0 7 73 c2Zc1 c2Zc2).2.1 "59" (by decide),
   (zone_cache_full_replace_spec c2Store0 7 73 c2Zc1 c2Zc2).2.2 8 (by decide)⟩

/-- Rust `f32 as u*` truncation toward zero, saturating at 0 below: for a
non-negative rational this is the floor `p.num.toNat / p.den`, and any
negative value is clamped to 0 (as the Rust cast does). -/
def ratTruncNat (p : ℚ) : ℕ := p.num.toNat / p.den

/-- `percentile as u32` in src/server/src/fflogs/mapping.rs (saturating at
`u32::MAX`). -/
def f32_as_u32 (p : ℚ) : ℕ := min 4294967295 (ratTruncNat p)

/-- `percentile as u8` in src/server/src/web/handlers.rs (saturating at 255). -/
def f32_as_u8 (p : ℚ) : ℕ := min 255 (ratTruncNat p)

/-- Rust `f32::round` (half away from zero) followed by `as u8`: for
non-negative `p` this is `⌊p + 1/2⌋ = (2*num + den) / (2*den)`, and negative
values saturate to 0.  Used by src/server/src/api.rs. -/
def ratRoundNat (p : ℚ) : ℕ := (2 * p.num.toNat + p.den) / (2 * p.den)

/-- `percentile.round() as u8` in src/server/src/api.rs line 86. -/
def round_as_u8 (p : ℚ) : ℕ := min 255 (ratRoundNat p)

/-- `percentile_color_class` (src/server/src/fflogs/mapping.rs lines 133-143):
`match percentile as u32` over the fixed tier table. -/
def percentile_color_class (percentile : ℚ) : String :=
  let n := f32_as_u32 percentile
  if n = 100 then "parse-gold"
  else if n = 99 then "parse-pink"
  else if 95 ≤ n ∧ n ≤ 98 then "parse-orange"
  else if 75 ≤ n ∧ n ≤ 94 then "parse-purple"
  else if 50 ≤ n ∧ n ≤ 74 then "parse-blue"
  else if 25 ≤ n ∧ n ≤ 49 then "parse-green"
  else "parse-gray"

/-- The per-member parse lookup of the HTML listings handler
(src/server/src/web/handlers.rs lines 100-128): start from
`(None, "parse-none")` and fill in `(percentile as u8, color class)` only when
the zone is a known FFLogs zone (`zone_id > 0`), the player has a cache
document with that zone and that encounter, and the cached percentile is
`>= 0.0`. -/
def render_member_parse (docs : ℤ → Option ParseCacheDoc) (uid : ℤ)
    (zone_id encounter_id : Nat) : Option ℕ × String :=
  if 0 < zone_id then
    match docs uid with
    | some d =>
      match d.zones (zoneKey zone_id) with
      | some zc =>
        match zc.encounters (toString encounter_id) with
        | some ep =>
          if 0 ≤ ep.percentile then
            (some (f32_as_u8 ep.percentile), percentile_color_class ep.percentile)
          else (none, "parse-none")
        | none => (none, "parse-none")
      | none => (none, "parse-none")
    | none => (none, "parse-none")
  else (none, "parse-none")

/-- The per-member parse lookup of the JSON API listings route
(src/server/src/api.rs lines 79-95): from the batched `get_zone_caches` map,
a negative percentile or any missing layer yields `(None, "parse-none")`,
otherwise `(percentile.round() as u8, color class)`. -/
def api_member_parse (zone_caches : ℤ → Option ZoneCache) (uid : ℤ)
    (encounter_id : Nat) : Option ℕ × String :=
  match zone_caches uid with
  | some zc =>
    match zc.encounters (toString encounter_id) with
    | some ep =>
      if ep.percentile < 0 then (none, "parse-none")
      else (some (round_as_u8 ep.percentile), percentile_color_class ep.percentile)
    | none => (none, "parse-none")
  | none => (none, "parse-none")

/-- Nat division brackets the exact rational quotient: `a / b ≤ a/b < a / b + 1`. -/
lemma natDiv_bracket (a b : ℕ) (hb : 0 < b) :
    ((a / b : ℕ) : ℚ) ≤ (a : ℚ) / (b : ℚ) ∧ (a : ℚ) / (b : ℚ) < ((a / b : ℕ) : ℚ) + 1 := by
  have hbq : (0 : ℚ) < (b : ℚ) := by exact_mod_cast hb
  constructor
  · rw [le_div_iff hbq]
    exact_mod_cast Nat.div_mul_le_self a b
  · rw [div_lt_iff hbq]
    have h1 : b * (a / b) + a % b = a := Nat.div_add_mod a b
    have h2 : a % b < b := Nat.mod_lt a hb
    have : a < (a / b + 1) * b := by
      have : (a / b + 1) * b = b * (a / b) + b := by ring
      omega
    calc (a : ℚ) < ((a / b + 1) * b : ℕ) := by exact_mod_cast this
    _ = (((a / b : ℕ) : ℚ) + 1) * (b : ℚ) := by push_cast; ring

/-- A non-negative rational is the quotient of its numerator's absolute value
by its denominator. -/
lemma rat_nonneg_repr (p : ℚ) (hp : 0 ≤ p) :
    p = ((p.num.toNat : ℕ) : ℚ) / ((p.den : ℕ) : ℚ) := by
  have hnum : ((p.num.toNat : ℕ) : ℤ) = p.num := Int.toNat_of_nonneg (Rat.num_nonneg.2 hp)
  have hcast : ((p.num.toNat : ℕ) : ℚ) = ((p.num : ℤ) : ℚ) := by exact_mod_cast hnum
  rw [hcast]
  exact (Rat.num_div_den p).symm

/-- Adding one half to a quotient of naturals, written over a common
denominator. -/
lemma half_repr (a b : ℕ) (hb : 0 < b) :
    (a : ℚ) / (b : ℚ) + 1/2 = ((2 * a + b : ℕ) : ℚ) / ((2 * b : ℕ) : ℚ) := by
  have hbq : ((b : ℕ) : ℚ) ≠ 0 := by
    have : b ≠ 0 := by omega
    exact_mod_cast this
  push_cast
  field_simp
  ring

/-- For a non-negative rational, `ratTruncNat` is its integer part. -/
lemma ratTruncNat_bracket (p : ℚ) (hp : 0 ≤ p) :
    ((ratTruncNat p : ℕ) : ℚ) ≤ p ∧ p < ((ratTruncNat p : ℕ) : ℚ) + 1 := by
  have h := natDiv_bracket p.num.toNat p.den p.pos
  rw [← rat_nonneg_repr p hp] at h
  exact h

/-- For a non-negative rational, `ratRoundNat` is the integer part of `p + 1/2`. -/
lemma ratRoundNat_bracket (p : ℚ) (hp : 0 ≤ p) :
    ((ratRoundNat p : ℕ) : ℚ) ≤ p + 1/2 ∧ p + 1/2 < ((ratRoundNat p : ℕ) : ℚ) + 1 := by
  have h := natDiv_bracket (2 * p.num.toNat + p.den) (2 * p.den)
    (by have := p.pos; omega)
  rw [← half_repr p.num.toNat p.den p.pos, ← rat_nonneg_repr p hp] at h
  exact h

/-- Two naturals bracketing the same rational are equal. -/
lemma natFloor_unique (m k : ℕ) (p : ℚ) (h1 : (m : ℚ) ≤ p) (h2 : p < (m : ℚ) + 1)
    (h3 : (k : ℚ) ≤ p) (h4 : p < (k : ℚ) + 1) : m = k := by
  have hmk : (m : ℚ) < (k : ℚ) + 1 := lt_of_le_of_lt h1 h4
  have hkm : (k : ℚ) < (m : ℚ) + 1 := lt_of_le_of_lt h3 h2
  have hmk' : m < k + 1 := by exact_mod_cast hmk
  have hkm' : k < m + 1 := by exact_mod_cast hkm
  omega

/-- C5: the classification of an integer percentile follows the fixed tier
table (100 gold, 99 pink, 95-98 orange, 75-94 purple, 50-74 blue, 25-49
green, other non-negative values gray); a stored percentile of -1 survives a
storage round-trip and renders as percentile `none` with class "parse-none";
and a player with no cache document at all renders the same way through the
missing-document branch. -/
theorem percentile_classification_spec :
    percentile_color_class 100 = "parse-gold"
    ∧ percentile_color_class 99 = "parse-pink"
    ∧ ((List.range' 95 4).all
        (fun p => percentile_color_class (p : ℚ) == "parse-orange")) = true
    ∧ ((List.range' 75 20).all
        (fun p => percentile_color_class (p : ℚ) == "parse-purple")) = true
    ∧ ((List.range' 50 25).all
        (fun p => percentile_color_class (p : ℚ) == "parse-blue")) = true
    ∧ ((List.range' 25 25).all
        (fun p => percentile_color_class (p : ℚ) == "parse-green")) = true
    ∧ ((List.range 25).all
        (fun p => percentile_color_class (p : ℚ) == "parse-gray")) = true
    ∧ (∀ (st : Store) (cid : ℤ) (zid eid : Nat) (zc : ZoneCache) (j : ℕ),
        0 < zid →
        zc.encounters (toString eid) = some ⟨-1, j⟩ →
        get_zone_cache (upsert_zone_cache st cid zid zc) cid zid = some zc
        ∧ render_member_parse (get_parse_docs (upsert_zone_cache st cid zid zc) [cid])
            cid zid eid = (none, "parse-none"))
    ∧ (∀ (docs : ℤ → Option ParseCacheDoc) (uid : ℤ) (zid eid : Nat),
        docs uid = none → 0 < zid →
        render_member_parse docs uid zid eid = (none, "parse-none")) := by
  refine ⟨by decide, by decide, by decide, by decide, by decide, by decide, by decide,
    ?_, ?_⟩
  · intro st cid zid eid zc j hz henc
    constructor
    · simp only [get_zone_cache, upsert_zone_cache, if_pos rfl]
      cases st cid <;> simp [setZone]
    · have hneg : ¬ (0 : ℚ) ≤ -1 := by norm_num
      cases h : st cid <;>
        simp [render_member_parse, get_parse_docs, upsert_zone_cache, setZone,
          h, hz, henc, hneg]
  · intro docs uid zid eid h hz
    simp [render_member_parse, h, hz]

/-- Cached zone entry used by the C5 witness: encounter 101 holds the -1
sentinel. -/
def c5Zc : ZoneCache := ⟨0, fun k => if k = "101" then some ⟨-1, 0⟩ else none⟩

/-- Witness for C5: storing the -1 sentinel for player 3, zone 73, encounter
101 round-trips and renders as `(none, "parse-none")`, and the playerless
lookup (player 4) renders the same way. -/
theorem percentile_classification_witness :
    (get_zone_cache (upsert_zone_cache (fun _ => none) 3 73 c5Zc) 3 73 = some c5Zc
      ∧ render_member_parse (get_parse_docs (upsert_zone_cache (fun _ => none) 3 73 c5Zc) [3])
          3 73 101 = (none, "parse-none"))
    ∧ render_member_parse (fun _ => none) 4 73 101 = (none, "parse-none") :=
  ⟨percentile_classification_spec.2.2.2.2.2.2.2.1 (fun _ => none) 3 73 101 c5Zc 0
      (by decide) rfl,
   percentile_classification_spec.2.2.2.2.2.2.2.2 (fun _ => none) 4 73 101 rfl
      (by decide)⟩

/-- Encounter entry of the C9 counterexample: percentile 87.6. -/
def c9Ep : EncounterParse := ⟨mkRat 438 5, 0⟩

/-- Zone entry of the C9 counterexample. -/
def c9Zc : ZoneCache := ⟨0, fun k => if k = "101" then some c9Ep else none⟩

/-- Cache document of the C9 counterexample. -/
def c9Doc : ParseCacheDoc := ⟨7, fun k => if k = "73" then some c9Zc else none⟩

/-- Store of the C9 counterexample: one player (7) with one zone (73). -/
def c9Store : Store := fun c => if c = 7 then some c9Doc else none

/-- C9 fails as stated: for the cached percentile 87.6 (≥ 0) of player 7,
zone 73, encounter 101, the HTML render path truncates to 87 while the JSON
API path rounds to 88, so the two paths do not report the same integer
percentile. -/
theorem listings_percentile_paths_counterexample :
    (render_member_parse (get_parse_docs c9Store [7]) 7 73 101).1 = some 87
    ∧ (api_member_parse (get_zone_caches c9Store [7] 73) 7 101).1 = some 88
    ∧ ¬ ((render_member_parse (get_parse_docs c9Store [7]) 7 73 101).1
          = (api_member_parse (get_zone_caches c9Store [7] 73) 7 101).1) := by
  refine ⟨by decide, by decide, by decide⟩

/-- C9 (amended): for every cached encounter score with percentile ≥ 0, the
HTML render path and the JSON API path report the same color classification;
the HTML path reports the truncated percentile and the JSON path the rounded
one, so the integer percentiles agree whenever the cached value lies within
[k, k + 1/2) for its integer part k (in particular for every integer-valued
percentile), and may differ by one otherwise. -/
theorem listings_percentile_paths_amended (st : Store) (cid : ℤ) (zid eid : Nat)
    (cids : List ℤ) (d : ParseCacheDoc) (zc : ZoneCache) (ep : EncounterParse)
    (hmem : cid ∈ cids) (hz : 0 < zid)
    (hd : st cid = some d) (hzc : d.zones (zoneKey zid) = some zc)
    (hep : zc.encounters (toString eid) = some ep) (hp : 0 ≤ ep.percentile) :
    (render_member_parse (get_parse_docs st cids) cid zid eid).2
      = (api_member_parse (get_zone_caches st cids zid) cid eid).2
    ∧ (render_member_parse (get_parse_docs st cids) cid zid eid).2
      = percentile_color_class ep.percentile
    ∧ (render_member_parse (get_parse_docs st cids) cid zid eid).1
      = some (f32_as_u8 ep.percentile)
    ∧ (api_member_parse (get_zone_caches st cids zid) cid eid).1
      = some (round_as_u8 ep.percentile)
    ∧ (∀ k : ℕ, (k : ℚ) ≤ ep.percentile → ep.percentile < (k : ℚ) + 1/2 →
        f32_as_u8 ep.percentile = round_as_u8 ep.percentile) := by
  have hnotlt : ¬ ep.percentile < 0 := not_lt.2 hp
  have hrender : render_member_parse (get_parse_docs st cids) cid zid eid
      = (some (f32_as_u8 ep.percentile), percentile_color_class ep.percentile) := by
    simp [render_member_parse, get_parse_docs, hmem, hz, hd, hzc, hep, hp]
  have hapi : api_member_parse (get_zone_caches st cids zid) cid eid
      = (some (round_as_u8 ep.percentile), percentile_color_class ep.percentile) := by
    simp [api_member_parse, get_zone_caches, get_zone_cache, hmem, hd, hzc, hep, hnotlt]
  refine ⟨by rw [hrender, hapi], by rw [hrender], by rw [hrender], by rw [hapi], ?_⟩
  intro k hk1 hk2
  have hhalf : (0 : ℚ) < 1/2 := by norm_num
  have ht := ratTruncNat_bracket ep.percentile hp
  have hr := ratRoundNat_bracket ep.percentile hp
  have htk : ratTruncNat ep.percentile = k :=
    natFloor_unique _ _ ep.percentile ht.1 ht.2 hk1 (by linarith)
  have hrk : ratRoundNat ep.percentile = k :=
    natFloor_unique _ _ (ep.percentile + 1/2) hr.1 hr.2 (by linarith) (by linarith)
  simp [f32_as_u8, round_as_u8, htk, hrk]

/-- Encounter entry of the C9 witness: integer percentile 87. -/
def c9WEp : EncounterParse := ⟨87, 0⟩

/-- Zone entry of the C9 witness. -/
def c9WZc : ZoneCache := ⟨0, fun k => if k = "101" then some c9WEp else none⟩

/-- Cache document of the C9 witness. -/
def c9WDoc : ParseCacheDoc := ⟨7, fun k => if k = "73" then some c9WZc else none⟩

/-- Store of the C9 witness. -/
def c9WStore : Store := fun c => if c = 7 then some c9WDoc else none

/-- Witness for the amended C9 at an integer percentile (87): both paths
agree on the classification and, by the fractional-part clause at k = 87, on
the integer percentile. -/
theorem listings_percentile_paths_amended_witness :
    (render_member_parse (get_parse_docs c9WStore [7]) 7 73 101).2
      = (api_member_parse (get_zone_caches c9WStore [7] 73) 7 101).2
    ∧ f32_as_u8 (87 : ℚ) = round_as_u8 (87 : ℚ) :=
  ⟨(listings_percentile_paths_amended c9WStore 7 73 101 [7] c9WDoc c9WZc c9WEp
      (by decide) (by decide) rfl rfl rfl (by decide)).1,
   (listings_percentile_paths_amended c9WStore 7 73 101 [7] c9WDoc c9WZc c9WEp
      (by decide) (by decide) rfl rfl rfl (by decide)).2.2.2.2 87
      (by norm_num [c9WEp]) (by norm_num [c9WEp])⟩

/-- OAuth access token (`AccessToken` in src/server/src/fflogs/client.rs):
bearer string and expiry timestamp (seconds). -/
structure AccessToken where
  token : String
  expires_at : ℤ
deriving DecidableEq

/-- Observable outcome of one `get_token` call: the returned value, the token
slot afterwards, and whether a network credential exchange was performed. -/
structure TokenStep where
  result : Except Unit String
  state : Option AccessToken
  networkCall : Bool

/-- The credential-exchange leg of `get_token` (src/server/src/fflogs/client.rs
lines 112-140): on failure nothing is stored; on success the token is stored
with `expires_at = now + expires_in` and returned.  The exchange outcome
(network error, non-2xx, malformed body all collapse to `error`) is passed in
as a parameter. -/
def token_exchange (st : Option AccessToken) (now : ℤ)
    (exchange : Except Unit (String × ℤ)) : TokenStep :=
  match exchange with
  | .error e => ⟨.error e, st, true⟩
  | .ok te => ⟨.ok te.1, some ⟨te.1, now + te.2⟩, true⟩

/-- `get_token` (src/server/src/fflogs/client.rs lines 100-141): if a stored
token expires more than 5 minutes (300 s) from now, return it with no network
call; otherwise perform the credential exchange. -/
def get_token (st : Option AccessToken) (now : ℤ)
    (exchange : Except Unit (String × ℤ)) : TokenStep :=
  match st with
  | some tok =>
    if now + 300 < tok.expires_at then ⟨.ok tok.token, some tok, false⟩
    else token_exchange (some tok) now exchange
  | none => token_exchange none now exchange

/-- What `token_exchange` guarantees regardless of the prior slot. -/
lemma token_exchange_behaviour (st : Option AccessToken) (now : ℤ)
    (ex : Except Unit (String × ℤ)) :
    (token_exchange st now ex).networkCall = true
    ∧ ((token_exchange st now ex).result = .error () ↔ ex = .error ())
    ∧ (∀ t e, ex = .ok (t, e) →
        token_exchange st now ex = ⟨.ok t, some ⟨t, now + e⟩, true⟩) := by
  cases ex with
  | error e => cases e; simp [token_exchange]
  | ok te =>
    refine ⟨rfl, by simp [token_exchange], ?_⟩
    intro t e h
    injection h with h'
    subst h'
    rfl

/-- C7: with a stored credential expiring more than 5 minutes after now,
`get_token` returns it unchanged with no network call; otherwise it performs
the exchange, fails exactly when the exchange fails, and on success stores the
new credential (expiring `expires_in` seconds from now) and returns its token. -/
theorem get_token_spec :
    (∀ (tok : AccessToken) (now : ℤ) (ex : Except Unit (String × ℤ)),
        now + 300 < tok.expires_at →
        get_token (some tok) now ex = ⟨.ok tok.token, some tok, false⟩)
    ∧ (∀ (st : Option AccessToken) (now : ℤ) (ex : Except Unit (String × ℤ)),
        (st = none ∨ ∃ tok, st = some tok ∧ tok.expires_at ≤ now + 300) →
        (get_token st now ex).networkCall = true
        ∧ ((get_token st now ex).result = .error () ↔ ex = .error ())
        ∧ (∀ t e, ex = .ok (t, e) →
            get_token st now ex = ⟨.ok t, some ⟨t, now + e⟩, true⟩)) := by
  constructor
  · intro tok now ex h
    simp [get_token, h]
  · intro st now ex h
    rcases h with rfl | ⟨tok, rfl, hle⟩
    · simpa [get_token] using token_exchange_behaviour none now ex
    · have hif : ¬ now + 300 < tok.expires_at := not_lt.2 hle
      simpa [get_token, hif] using token_exchange_behaviour (some tok) now ex

/-- Witness for C7: a token expiring at 1000 s is served at time 0 with no
network call, and with no stored token an exchange returning ("newtok", 3600)
is stored and returned. -/
theorem get_token_witness :
    get_token (some ⟨"tok", 1000⟩) 0 (.error ())
      = ⟨.ok "tok", some ⟨"tok", 1000⟩, false⟩
    ∧ get_token none 0 (.ok ("newtok", 3600))
      = ⟨.ok "newtok", some ⟨"newtok", 3600⟩, true⟩ :=
  ⟨get_token_spec.1 ⟨"tok", 1000⟩ 0 (.error ()) (by decide),
   (get_token_spec.2 none 0 (.ok ("newtok", 3600)) (Or.inl rfl)).2.2 "newtok" 3600 rfl⟩

/-- One grouped player of the sync scheduler
(src/server/src/web/background.rs line 68): content id, name, home world,
region. -/
abbrev PlayerTuple := ℕ × String × String × String

/-- Inner loop of Rust `Vec::dedup_by_key` keyed on the content id: drop each
element whose key equals the key of the last retained element. -/
def dedupGo : PlayerTuple → List PlayerTuple → List PlayerTuple
  | _, [] => []
  | prev, y :: ys => if y.1 = prev.1 then dedupGo prev ys else y :: dedupGo y ys

/-- Rust `Vec::dedup_by_key(|p| p.0)`: keep the first of each run of equal
keys. -/
def dedupByKey : List PlayerTuple → List PlayerTuple
  | [] => []
  | x :: xs => x :: dedupGo x xs

/-- The comparison used by `sort_by_key(|p| p.0)`. -/
def playersLe (a b : PlayerTuple) : Bool := decide (a.1 ≤ b.1)

/-- The dedup step of the sync scheduler
(src/server/src/web/background.rs lines 101-105):
`players.sort_by_key(|p| p.0); players.dedup_by_key(|p| p.0)` (a stable sort
by content id followed by removal of consecutive equal keys). -/
def dedup_players (l : List PlayerTuple) : List PlayerTuple :=
  dedupByKey (l.mergeSort playersLe)

/-- After dedup of a list sorted by key, the keys are strictly increasing, and
every retained key strictly exceeds the key of the element before the run. -/
lemma dedupGo_strict (ys : List PlayerTuple) :
    ∀ prev : PlayerTuple, (prev :: ys).Pairwise (fun a b => playersLe a b = true) →
      (dedupGo prev ys).Pairwise (fun a b => a.1 < b.1)
      ∧ ∀ z ∈ dedupGo prev ys, prev.1 < z.1 := by
  induction ys with
  | nil => intro prev _; simp [dedupGo]
  | cons y ys ih =>
    intro prev h
    rw [List.pairwise_cons] at h
    obtain ⟨hprev, hy⟩ := h
    by_cases hk : y.1 = prev.1
    · rw [show dedupGo prev (y :: ys) = dedupGo prev ys by simp [dedupGo, hk]]
      apply ih
      rw [List.pairwise_cons]
      exact ⟨fun b hb => hprev b (List.mem_cons_of_mem y hb),
        (List.pairwise_cons.1 hy).2⟩
    · rw [show dedupGo prev (y :: ys) = y :: dedupGo y ys by simp [dedupGo, hk]]
      have ihy := ih y hy
      have hprevy : prev.1 < y.1 := by
        have := hprev y (List.mem_cons_self y ys)
        simp only [playersLe, decide_eq_true_eq] at this
        omega
      refine ⟨List.pairwise_cons.2 ⟨fun z hz => ihy.2 z hz, ihy.1⟩, ?_⟩
      intro z hz
      rcases List.mem_cons.1 hz with rfl | hz'
      · exact hprevy
      · exact lt_trans hprevy (ihy.2 z hz')

/-- Dedup of a key-sorted list has strictly increasing keys. -/
lemma dedupByKey_strict (l : List PlayerTuple)
    (h : l.Pairwise (fun a b => playersLe a b = true)) :
    (dedupByKey l).Pairwise (fun a b => a.1 < b.1) := by
  cases l with
  | nil => simp [dedupByKey]
  | cons x xs =>
    rw [show dedupByKey (x :: xs) = x :: dedupGo x xs from rfl, List.pairwise_cons]
    have := dedupGo_strict xs x h
    exact ⟨this.2, this.1⟩

/-- `dedupGo` keeps a list untouched when every element's key differs from the
previous retained key and the keys are pairwise distinct. -/
lemma dedupGo_id (ys : List PlayerTuple) :
    ∀ prev : PlayerTuple, (∀ z ∈ ys, prev.1 < z.1) →
      ys.Pairwise (fun a b => a.1 < b.1) → dedupGo prev ys = ys := by
  induction ys with
  | nil => intro prev _ _; rfl
  | cons y ys ih =>
    intro prev hprev hy
    have hk : ¬ y.1 = prev.1 := by
      have := hprev y (List.mem_cons_self y ys)
      omega
    rw [List.pairwise_cons] at hy
    rw [show dedupGo prev (y :: ys) = y :: dedupGo y ys by simp [dedupGo, hk]]
    rw [ih y hy.1 hy.2]

/-- Dedup is the identity on a list with strictly increasing keys. -/
lemma dedupByKey_id (l : List PlayerTuple)
    (h : l.Pairwise (fun a b => a.1 < b.1)) : dedupByKey l = l := by
  cases l with
  | nil => rfl
  | cons x xs =>
    rw [List.pairwise_cons] at h
    rw [show dedupByKey (x :: xs) = x :: dedupGo x xs from rfl,
      dedupGo_id xs x h.1 h.2]

/-- C8: after the grouping step's dedup (sort by content id, then dedup),
every content id appears at most once (the keys are pairwise distinct), and
applying the sort-and-dedup step to its own output returns it unchanged. -/
theorem group_dedup_spec (l : List PlayerTuple) :
    (dedup_players l).Pairwise (fun a b => a.1 ≠ b.1)
    ∧ dedup_players (dedup_players l) = dedup_players l := by
  have htrans : ∀ a b c : PlayerTuple,
      playersLe a b → playersLe b c → playersLe a c := by
    intro a b c hab hbc
    simp only [playersLe, decide_eq_true_eq] at *
    omega
  have htotal : ∀ a b : PlayerTuple, playersLe a b || playersLe b a := by
    intro a b
    simp only [playersLe]
    by_cases h : a.1 ≤ b.1 <;> simp [h] <;> omega
  have hsorted : (l.mergeSort playersLe).Pairwise (fun a b => playersLe a b = true) :=
    List.sorted_mergeSort htrans htotal l
  have hstrict := dedupByKey_strict _ hsorted
  constructor
  · exact hstrict.imp (fun h => by omega)
  · show dedupByKey ((dedup_players l).mergeSort playersLe) = dedup_players l
    have hD : (dedup_players l).Pairwise (fun a b => playersLe a b = true) :=
      hstrict.imp (fun h => by simp only [playersLe, decide_eq_true_eq]; omega)
    rw [List.mergeSort_of_sorted hD]
    exact dedupByKey_id _ hstrict

/-- A `serde_json::Value`: numbers are modelled as rationals. -/
inductive Json where
  | null : Json
  | bool : Bool → Json
  | num : ℚ → Json
  | str : String → Json
  | arr : List Json → Json
  | obj : List (String × Json) → Json

/-- `Value::get(key)` on an object (first matching field), `None` otherwise. -/
def getField : Json → String → Option Json
  | .obj fields, key => fields.lookup key
  | _, _ => none

/-- `Value::as_array`. -/
def asArray : Json → Option (List Json)
  | .arr xs => some xs
  | _ => none

/-- `Value::as_f64`: any JSON number. -/
def asF64 : Json → Option ℚ
  | .num q => some q
  | _ => none

/-- `Value::as_u64`: an integral JSON number representable as a u64. -/
def asU64 : Json → Option ℕ
  | .num q =>
    if q.den = 1 ∧ 0 ≤ q.num ∧ q.num < 18446744073709551616 then some q.num.toNat
    else none
  | _ => none

/-- Rust `u64 as u32` (wrapping truncation). -/
def u64_as_u32 (n : ℕ) : ℕ := n % 4294967296

/-- The positional alias given to player `i` in a batch query
(`format!("char{}", i)` in src/server/src/fflogs/client.rs). -/
def aliasName (i : ℕ) : String := "char" ++ toString i

/-- `result["data"]["characterData"]` (src/server/src/fflogs/client.rs lines
373 and 476). -/
def dataPart (j : Json) : Option Json :=
  (getField j "data").bind fun d => getField d "characterData"

/-- One rankings item to `(encounter_id, percentile)` (the `filter_map`
closure of `get_batch_zone_all_parses`, src/server/src/fflogs/client.rs lines
487-497): both `encounter.id` (as u64, cast to u32) and `rankPercent` (as
f64) must be present, else the item is dropped. -/
def decodeRankingItem (item : Json) : Option (ℕ × ℚ) :=
  match ((getField item "encounter").bind fun e => getField e "id").bind asU64 with
  | some encId =>
    match (getField item "rankPercent").bind asF64 with
    | some p => some (u64_as_u32 encId, p)
    | none => none
  | none => none

/-- Per-character decoding of `get_batch_zone_all_parses`
(src/server/src/fflogs/client.rs lines 480-499): follow
`zoneRankings.rankings` as an array and keep the well-formed items; any
failure in the chain yields the empty list (`unwrap_or_default`). -/
def decodeAliasAll (c : Json) : List (ℕ × ℚ) :=
  match ((getField c "zoneRankings").bind fun zr => getField zr "rankings").bind
      asArray with
  | some arr => arr.filterMap decodeRankingItem
  | none => []

/-- The search loop of `get_batch_encounter_parses`
(src/server/src/fflogs/client.rs lines 382-393): the first item whose
`encounter.id` matches decides the result via its `rankPercent`. -/
def findEncounter (encId : ℕ) : List Json → Option ℚ
  | [] => none
  | item :: rest =>
    match ((getField item "encounter").bind fun e => getField e "id").bind asU64 with
    | some id =>
      if u64_as_u32 id = encId then (getField item "rankPercent").bind asF64
      else findEncounter encId rest
    | none => findEncounter encId rest

/-- Per-character decoding of `get_batch_encounter_parses`
(src/server/src/fflogs/client.rs lines 377-393). -/
def decodeAliasEnc (c : Json) (encId : ℕ) : Option ℚ :=
  match ((getField c "zoneRankings").bind fun zr => getField zr "rankings").bind
      asArray with
  | some arr => findEncounter encId arr
  | none => none

/-- A batch-query input tuple `(name, server, region)`. -/
abbrev BatchPlayer := String × String × String

/-- `get_batch_encounter_parses` (src/server/src/fflogs/client.rs lines
308-405), from the point the HTTP response is available: empty input short-
circuits to `ok []` before any network use; a non-success status or an
unparsable body fail the whole call; otherwise one result per input index is
produced in order, `none` when the alias (or the whole `data` part) is
absent.  GraphQL `errors` entries are inspected and deliberately ignored
(lines 366-371). -/
def get_batch_encounter_parses (players : List BatchPlayer) (encId : ℕ)
    (statusOk : Bool) (body : Option Json) :
    Except Unit (List (ℕ × Option ℚ)) :=
  if players.isEmpty then .ok []
  else if statusOk then
    match body with
    | some j =>
      .ok (match dataPart j with
        | some data => (List.range players.length).map
            (fun i => (i, (getField data (aliasName i)).bind
              fun c => decodeAliasEnc c encId))
        | none => (List.range players.length).map fun i => (i, none))
    | none => .error ()
  else .error ()

/-- `get_batch_zone_all_parses` (src/server/src/fflogs/client.rs lines
414-511), from the point the HTTP response is available: same shape as
`get_batch_encounter_parses` but each index yields the full decoded
encounter list, empty when its alias is absent or malformed. -/
def get_batch_zone_all_parses (players : List BatchPlayer)
    (statusOk : Bool) (body : Option Json) :
    Except Unit (List (ℕ × List (ℕ × ℚ))) :=
  if players.isEmpty then .ok []
  else if statusOk then
    match body with
    | some j =>
      .ok (match dataPart j with
        | some data => (List.range players.length).map
            (fun i => (i, match getField data (aliasName i) with
              | some c => decodeAliasAll c
              | none => []))
        | none => (List.range players.length).map fun i => (i, []))
    | none => .error ()
  else .error ()

/-- Mapping each index of `range n` to a pair tagged with itself preserves the
index sequence. -/
lemma map_fst_enum {β : Type} (n : ℕ) (f : ℕ → β) :
    ((List.range n).map (fun i => (i, f i))).map Prod.fst = List.range n := by
  rw [List.map_map]
  show List.map (fun i => i) (List.range n) = List.range n
  simp

/-- C3: a successful batch decode returns exactly one result per input index
in input order 0..n-1, and the result at index i is exactly the decoding of
that index's positional alias: the player's data when the alias is present in
the response's `data.characterData`, and `none` when the alias (or the data
part) is absent. -/
theorem batch_demux_spec (players : List BatchPlayer) (encId : ℕ) (j : Json)
    (res : List (ℕ × Option ℚ)) (hlen : players.length ≤ 20)
    (hok : get_batch_encounter_parses players encId true (some j) = .ok res) :
    res.length = players.length
    ∧ res.map Prod.fst = List.range players.length
    ∧ (∀ i, i < players.length →
        res[i]? = some (i, (dataPart j).bind
          fun data => (getField data (aliasName i)).bind
            fun c => decodeAliasEnc c encId)) := by
  by_cases hemp : players.isEmpty
  · have hpl : players = [] := List.isEmpty_iff.1 hemp
    subst hpl
    simp only [get_batch_encounter_parses, List.isEmpty_nil, if_true] at hok
    injection hok with h
    subst h
    simp
  · simp only [get_batch_encounter_parses, hemp, Bool.false_eq_true, if_false,
      if_true] at hok
    cases hd : dataPart j with
    | some data =>
      rw [hd] at hok
      injection hok with h
      subst h
      refine ⟨by simp, map_fst_enum _ _, ?_⟩
      intro i hi
      simp [List.getElem?_map, List.getElem?_range, hi, hd]
    | none =>
      rw [hd] at hok
      injection hok with h
      subst h
      refine ⟨by simp, map_fst_enum _ _, ?_⟩
      intro i hi
      simp [List.getElem?_map, List.getElem?_range, hi, hd]

/-- Input players of the C3 witness. -/
def c3Players : List BatchPlayer :=
  [("A", "Tonberry", "JP"), ("B", "Tonberry", "JP"), ("C", "Tonberry", "JP")]

/-- Response subtree for alias char0 of the C3 witness: encounter 101 at
percentile 80. -/
def c3CharA : Json :=
  .obj [("zoneRankings", .obj [("rankings", .arr
    [.obj [("encounter", .obj [("id", .num 101)]), ("rankPercent", .num 80)]])])]

/-- Response subtree for alias char2 of the C3 witness: encounter 101 at
percentile 95. -/
def c3CharC : Json :=
  .obj [("zoneRankings", .obj [("rankings", .arr
    [.obj [("encounter", .obj [("id", .num 101)]), ("rankPercent", .num 95)]])])]

/-- Response body of the C3 witness: aliases char0 and char2 present, char1
absent. -/
def c3Body : Json :=
  .obj [("data", .obj [("characterData", .obj
    [("char0", c3CharA), ("char2", c3CharC)])])]

/-- Decoded batch result of the C3 witness:
`[Some(data_A), None, Some(data_C)]` in input order. -/
def c3Res : List (ℕ × Option ℚ) := [(0, some 80), (1, none), (2, some 95)]

/-- Witness for C3 on the three-player batch with alias char1 absent: order
is preserved and index 1 alone decodes to the no-data result. -/
theorem batch_demux_witness :
    c3Res.map Prod.fst = List.range c3Players.length
    ∧ c3Res[0]? = some (0, (dataPart c3Body).bind
        fun data => (getField data (aliasName 0)).bind fun c => decodeAliasEnc c 101)
    ∧ c3Res[1]? = some (1, (dataPart c3Body).bind
        fun data => (getField data (aliasName 1)).bind fun c => decodeAliasEnc c 101) :=
  ⟨(batch_demux_spec c3Players 101 c3Body c3Res (by decide) rfl).2.1,
   (batch_demux_spec c3Players 101 c3Body c3Res (by decide) rfl).2.2 0 (by decide),
   (batch_demux_spec c3Players 101 c3Body c3Res (by decide) rfl).2.2 1 (by decide)⟩

/-- C4: for a non-empty batch, the call fails exactly when the HTTP status is
not a success or the whole body fails to parse; within any parseable body the
result at index i depends only on that index's alias subtree, so a malformed
or unmatched alias yields the empty result for that index only while the
other indices keep their decoded results. -/
theorem batch_error_policy_spec (players : List BatchPlayer) (statusOk : Bool)
    (body : Option Json) (hne : players ≠ []) :
    ((get_batch_zone_all_parses players statusOk body).isOk = true
      ↔ (statusOk = true ∧ body ≠ none))
    ∧ (∀ (j : Json) (res : List (ℕ × List (ℕ × ℚ))), body = some j →
        get_batch_zone_all_parses players statusOk body = .ok res →
        ∀ i, i < players.length →
          res[i]? = some (i, match dataPart j with
            | some data =>
              match getField data (aliasName i) with
              | some c => decodeAliasAll c
              | none => []
            | none => [])) := by
  have hemp : players.isEmpty = false := by
    cases players with
    | nil => exact absurd rfl hne
    | cons x xs => rfl
  constructor
  · cases statusOk with
    | false => simp [get_batch_zone_all_parses, hemp, Except.isOk, Except.toBool]
    | true =>
      cases body with
      | none => simp [get_batch_zone_all_parses, hemp, Except.isOk, Except.toBool]
      | some j => simp [get_batch_zone_all_parses, hemp, Except.isOk, Except.toBool]
  · intro j res hbody hok i hi
    subst hbody
    cases statusOk with
    | false => simp [get_batch_zone_all_parses, hemp] at hok
    | true =>
      simp only [get_batch_zone_all_parses, hemp, Bool.false_eq_true, if_false,
        if_true] at hok
      cases hd : dataPart j with
      | some data =>
        rw [hd] at hok
        injection hok with h
        subst h
        simp [List.getElem?_map, List.getElem?_range, hi, hd]
      | none =>
        rw [hd] at hok
        injection hok with h
        subst h
        simp [List.getElem?_map, List.getElem?_range, hi, hd]

/-- Input players of the C4 witness. -/
def c4Players : List BatchPlayer :=
  [("A", "Cactuar", "NA"), ("B", "Cactuar", "NA"), ("C", "Cactuar", "NA")]

/-- Alias char0 of the C4 witness: one well-formed encounter. -/
def c4Char0 : Json :=
  .obj [("zoneRankings", .obj [("rankings", .arr
    [.obj [("encounter", .obj [("id", .num 101)]), ("rankPercent", .num 80)]])])]

/-- Alias char2 of the C4 witness: two well-formed encounters. -/
def c4Char2 : Json :=
  .obj [("zoneRankings", .obj [("rankings", .arr
    [.obj [("encounter", .obj [("id", .num 101)]), ("rankPercent", .num 95)],
     .obj [("encounter", .obj [("id", .num 102)]), ("rankPercent", .num 40)]])])]

/-- Response body of the C4 witness: alias char1 is malformed (a bare
string). -/
def c4Body : Json :=
  .obj [("data", .obj [("characterData", .obj
    [("char0", c4Char0), ("char1", .str "garbage"), ("char2", c4Char2)])])]

/-- Decoded batch result of the C4 witness: the malformed alias yields the
empty list at index 1 only. -/
def c4Res : List (ℕ × List (ℕ × ℚ)) :=
  [(0, [(101, 80)]), (1, []), (2, [(101, 95), (102, 40)])]

/-- Witness for C4: the parseable response with a malformed char1 still
succeeds, index 1 decodes to the empty list, and indices 0 and 2 keep their
results. -/
theorem batch_error_policy_witness :
    (get_batch_zone_all_parses c4Players true (some c4Body)).isOk = true
    ∧ c4Res[0]? = some (0, [((101 : ℕ), (80 : ℚ))])
    ∧ c4Res[1]? = some (1, [])
    ∧ c4Res[2]? = some (2, [((101 : ℕ), (95 : ℚ)), ((102 : ℕ), (40 : ℚ))]) :=
  ⟨(batch_error_policy_spec c4Players true (some c4Body) (by decide)).1.mpr
      ⟨rfl, by simp⟩,
   (batch_error_policy_spec c4Players true (some c4Body) (by decide)).2
      c4Body c4Res rfl rfl 0 (by decide),
   (batch_error_policy_spec c4Players true (some c4Body) (by decide)).2
      c4Body c4Res rfl rfl 1 (by decide),
   (batch_error_policy_spec c4Players true (some c4Body) (by decide)).2
      c4Body c4Res rfl rfl 2 (by decide)⟩

/-- The encounter map built by the sync task for one player
(src/server/src/web/background.rs lines 182-191): start from the empty map
and insert each decoded `(enc_id, percentile)` under the key
`enc_id.to_string()` with `job_id = 0` (later duplicates overwrite). -/
def buildEncounterMap (encs : List (ℕ × ℚ)) : String → Option EncounterParse :=
  encs.foldl
    (fun m e => fun k => if k = toString e.1 then some ⟨e.2, 0⟩ else m k)
    (fun _ => none)

/-- The `ZoneCache` written by the sync task for one player
(src/server/src/web/background.rs lines 193-196): `fetched_at` is the write
time, `encounters` the freshly built map (possibly empty). -/
def buildZoneCache (now : ℤ) (encs : List (ℕ × ℚ)) : ZoneCache :=
  ⟨now, buildEncounterMap encs⟩

/-- One persisted batch result inside a successful chunk
(src/server/src/web/background.rs lines 178-206): index the chunk at the
result's player index and upsert that player's zone cache.  The source
indexes `chunk[*idx]` directly; since the batch decode returns one result per
input index, the out-of-range branch is unreachable and modelled as a no-op. -/
def runStep (zone_id : Nat) (now : ℤ) (chunk : List ℤ)
    (s : Store) (r : ℕ × List (ℕ × ℚ)) : Store :=
  match chunk[r.1]? with
  | some cid => upsert_zone_cache s cid zone_id (buildZoneCache now r.2)
  | none => s

/-- Processing of one chunk's batch outcome
(src/server/src/web/background.rs lines 176-212): on success every decoded
result is persisted; on failure the error is only logged and the store is
untouched. -/
def runChunk (st : Store) (zone_id : Nat) (now : ℤ) (chunk : List ℤ)
    (res : Except Unit (List (ℕ × List (ℕ × ℚ)))) : Store :=
  match res with
  | .error _ => st
  | .ok batchResults => batchResults.foldl (runStep zone_id now chunk) st

/-- Sequential processing of the chunks of one zone within a cycle
(src/server/src/web/background.rs line 158): each chunk's outcome is applied
in order, a failed chunk never aborts the loop. -/
def runChunks (st : Store) (zone_id : Nat) (now : ℤ)
    (chunks : List (List ℤ × Except Unit (List (ℕ × List (ℕ × ℚ))))) : Store :=
  chunks.foldl (fun s c => runChunk s zone_id now c.1 c.2) st

/-- The skip-fresh partition of the sync task
(src/server/src/web/background.rs lines 132-145): a player is fetched iff its
cached zone entry is absent or expired. -/
def players_to_fetch (cached : ℤ → Option ZoneCache) (now : ℤ)
    (players : List ℤ) : List ℤ :=
  players.filter fun p =>
    match cached p with
    | some cache => is_zone_cache_expired now cache
    | none => true

/-- Reading back the zone just upserted yields exactly the written value. -/
lemma get_zone_cache_upsert_self (st : Store) (cid : ℤ) (zid : Nat)
    (zc : ZoneCache) :
    get_zone_cache (upsert_zone_cache st cid zid zc) cid zid = some zc := by
  simp only [get_zone_cache, upsert_zone_cache, if_pos rfl]
  cases st cid <;> simp [setZone]

/-- An upsert for one player leaves every other player's lookups unchanged. -/
lemma get_zone_cache_upsert_other (st : Store) (cid : ℤ) (zid : Nat)
    (zc : ZoneCache) (c : ℤ) (zid' : Nat) (h : c ≠ cid) :
    get_zone_cache (upsert_zone_cache st cid zid zc) c zid'
      = get_zone_cache st c zid' := by
  simp [get_zone_cache, upsert_zone_cache, h]

/-- Folding a list of persisted results whose target players all differ from
`cid` leaves `cid`'s zone lookup unchanged. -/
lemma runFold_frame (zid : Nat) (now : ℤ) (chunk : List ℤ)
    (rs : List (ℕ × List (ℕ × ℚ))) :
    ∀ (st : Store) (cid : ℤ), (∀ r ∈ rs, chunk[r.1]? ≠ some cid) →
      get_zone_cache (rs.foldl (runStep zid now chunk) st) cid zid
        = get_zone_cache st cid zid := by
  induction rs with
  | nil => intro st cid _; rfl
  | cons r rs ih =>
    intro st cid h
    rw [List.foldl_cons, ih _ cid fun r' hr' => h r' (List.mem_cons_of_mem r hr')]
    unfold runStep
    cases hc : chunk[r.1]? with
    | none => rfl
    | some c =>
      have hne : c ≠ cid := fun he => h r (List.mem_cons_self r rs) (by rw [hc, he])
      exact get_zone_cache_upsert_other st c zid _ cid zid (Ne.symm hne)

/-- Folding a list of persisted results with pairwise distinct in-range
indices over a duplicate-free chunk writes, for each result, exactly the
built zone cache at that result's player. -/
lemma runFold_write (zid : Nat) (now : ℤ) (chunk : List ℤ)
    (hchunk : chunk.Nodup) (rs : List (ℕ × List (ℕ × ℚ))) :
    ∀ (st : Store), (rs.map Prod.fst).Nodup →
      (∀ r ∈ rs, r.1 < chunk.length) →
      ∀ r ∈ rs, ∀ (h : r.1 < chunk.length),
        get_zone_cache (rs.foldl (runStep zid now chunk) st)
          (chunk.get ⟨r.1, h⟩) zid = some (buildZoneCache now r.2) := by
  induction rs with
  | nil => intro st _ _ r hr; cases hr
  | cons r0 rs ih =>
    intro st hnd hlt r hr h
    have hnd' : r0.1 ∉ rs.map Prod.fst ∧ (rs.map Prod.fst).Nodup := by
      rw [List.map_cons, List.nodup_cons] at hnd
      exact hnd
    rw [List.foldl_cons]
    rcases List.mem_cons.1 hr with rfl | hr'
    · have hstep : runStep zid now chunk st r
          = upsert_zone_cache st (chunk.get ⟨r.1, h⟩) zid (buildZoneCache now r.2) := by
        unfold runStep
        rw [List.getElem?_eq_getElem h]
        rfl
      rw [hstep, runFold_frame zid now chunk rs _ _ ?frame]
      · exact get_zone_cache_upsert_self _ _ _ _
      case frame =>
        intro r' hr' heq
        have hr'lt : r'.1 < chunk.length := hlt r' (List.mem_cons_of_mem r hr')
        rw [List.getElem?_eq_getElem hr'lt] at heq
        have heq' : chunk[r'.1] = chunk[r.1] := by injection heq
        have hidx : r'.1 = r.1 := (hchunk.getElem_inj_iff).1 heq'
        exact hnd'.1 (hidx ▸ List.mem_map_of_mem Prod.fst hr')
    · exact ih (runStep zid now chunk st r0) hnd'.2
        (fun r' h' => hlt r' (List.mem_cons_of_mem r0 h')) r hr' h

/-- C6: within one sync cycle, when a chunk's batch call succeeds (decoding
one result per chunk index), exactly one zone-cache entry with `fetched_at`
set to the write time is stored for every player of that chunk — including
players whose decoded result has zero encounters — and such an entry is not
expired for 24 hours and keeps its player out of the next fetch partition;
when the chunk's batch call fails, the store is untouched for the whole chunk
and the cycle continues with the remaining chunks. -/
theorem sync_chunk_persistence_spec (st : Store) (zone_id : Nat) (now : ℤ)
    (chunk : List ℤ) (results : List (ℕ × List (ℕ × ℚ)))
    (hchunk : chunk.Nodup)
    (hidx : results.map Prod.fst = List.range chunk.length) :
    (∀ i (h : i < chunk.length),
      ∃ encs, results[i]? = some (i, encs)
        ∧ get_zone_cache (runChunk st zone_id now chunk (.ok results))
            (chunk.get ⟨i, h⟩) zone_id = some (buildZoneCache now encs))
    ∧ (∀ encs : List (ℕ × ℚ), (buildZoneCache now encs).fetched_at = now)
    ∧ (∀ (encs : List (ℕ × ℚ)) (now' : ℤ), now' - now ≤ 86400 →
        is_zone_cache_expired now' (buildZoneCache now encs) = false)
    ∧ (∀ (cached : ℤ → Option ZoneCache) (players : List ℤ) (cid : ℤ)
          (zc : ZoneCache) (now' : ℤ),
        cached cid = some zc → is_zone_cache_expired now' zc = false →
        cid ∉ players_to_fetch cached now' players)
    ∧ runChunk st zone_id now chunk (.error ()) = st
    ∧ (∀ rest, runChunks st zone_id now ((chunk, .error ()) :: rest)
        = runChunks st zone_id now rest) := by
  refine ⟨?_, fun encs => rfl, ?_, ?_, rfl, fun rest => rfl⟩
  · intro i h
    have hnd : (results.map Prod.fst).Nodup := by
      rw [hidx]
      exact List.nodup_range chunk.length
    have hlt : ∀ r ∈ results, r.1 < chunk.length := by
      intro r hr
      have hm : r.1 ∈ results.map Prod.fst := List.mem_map_of_mem Prod.fst hr
      rw [hidx] at hm
      exact List.mem_range.1 hm
    have hmf : (results.map Prod.fst)[i]? = some i := by
      rw [hidx]
      simp [List.getElem?_range, h]
    rw [List.getElem?_map] at hmf
    cases hres : results[i]? with
    | none => rw [hres] at hmf; simp at hmf
    | some p =>
      obtain ⟨pi, pe⟩ := p
      rw [hres] at hmf
      simp at hmf
      subst hmf
      refine ⟨pe, rfl, ?_⟩
      have hpmem : (pi, pe) ∈ results := List.getElem?_mem hres
      exact runFold_write zone_id now chunk hchunk results st hnd hlt
        (pi, pe) hpmem h
  · intro encs now' hle
    show decide ((buildZoneCache now encs).fetched_at < now' - 86400) = false
    have hnotlt : ¬ ((buildZoneCache now encs).fetched_at < now' - 86400) := by
      show ¬ (now < now' - 86400)
      omega
    exact decide_eq_false hnotlt
  · intro cached players cid zc now' hc hexp hmem
    have hpred := (List.mem_filter.1 hmem).2
    simp only [hc, hexp] at hpred
    exact Bool.false_ne_true hpred

/-- Chunk of the C6 witness: players 5 and 9. -/
def c6Chunk : List ℤ := [5, 9]

/-- Decoded batch results of the C6 witness: player index 0 has one
encounter, player index 1 has zero encounters. -/
def c6Results : List (ℕ × List (ℕ × ℚ)) := [(0, [(101, 80)]), (1, [])]

/-- Witness for C6: on success the zero-encounter player 9 still gets an
entry with `fetched_at = 1000`, and the failed chunk leaves the empty store
untouched. -/
theorem sync_chunk_persistence_witness :
    (∃ encs, c6Results[1]? = some (1, encs)
      ∧ get_zone_cache (runChunk (fun _ => none) 73 1000 c6Chunk (.ok c6Results))
          (c6Chunk.get ⟨1, by decide⟩) 73 = some (buildZoneCache 1000 encs))
    ∧ runChunk (fun _ => none) 73 1000 c6Chunk (.error ()) = (fun _ => none) :=
  ⟨(sync_chunk_persistence_spec (fun _ => none) 73 1000 c6Chunk c6Results
      (by decide) (by decide)).1 1 (by decide),
   (sync_chunk_persistence_spec (fun _ => none) 73 1000 c6Chunk c6Results
      (by decide) (by decide)).2.2.2.2.1⟩

/-- The JP world list actually consulted (`jp_servers_flat` in
src/server/src/fflogs/client.rs lines 541-546). -/
def jp_servers_flat : List String :=
  ["Aegis", "Atomos", "Carbuncle", "Garuda", "Gungnir", "Kujata", "Tonberry",
   "Typhon", "Alexander", "Bahamut", "Durandal", "Fenrir", "Ifrit", "Ridill",
   "Tiamat", "Ultima", "Anima", "Asura", "Chocobo", "Hades", "Ixion",
   "Masamune", "Pandaemonium", "Titan", "Belias", "Mandragora", "Ramuh",
   "Shinryu", "Unicorn", "Valefor", "Yojimbo", "Zeromus"]

/-- The NA world list (`na_servers`, src/server/src/fflogs/client.rs lines
549-558). -/
def na_servers : List String :=
  ["Adamantoise", "Cactuar", "Faerie", "Gilgamesh", "Jenova", "Midgardsormr",
   "Sargatanas", "Siren", "Behemoth", "Excalibur", "Exodus", "Famfrit",
   "Hyperion", "Lamia", "Leviathan", "Ultros", "Balmung", "Brynhildr",
   "Coeurl", "Diabolos", "Goblin", "Malboro", "Mateus", "Zalera",
   "Halicarnassus", "Maduin", "Marilith", "Seraph", "Cuchulainn", "Golem",
   "Kraken", "Rafflesia"]

/-- The EU world list (`eu_servers`, src/server/src/fflogs/client.rs lines
561-566). -/
def eu_servers : List String :=
  ["Cerberus", "Louisoix", "Moogle", "Omega", "Phantom", "Ragnarok",
   "Sagittarius", "Spriggan", "Alpha", "Lich", "Odin", "Phoenix", "Raiden",
   "Shiva", "Twintania", "Zodiark"]

/-- The OCE world list (`oce_servers`, src/server/src/fflogs/client.rs line
569). -/
def oce_servers : List String :=
  ["Bismarck", "Ravana", "Sephirot", "Sophia", "Zurvan"]

/-- Rust `str::eq_ignore_ascii_case` on character lists (`Char.toLower` only
lowercases ASCII letters, as in Rust). -/
def eq_ignore_ascii_case (a b : List Char) : Bool :=
  a.map Char.toLower == b.map Char.toLower

/-- Rust `str::trim`: drop whitespace from both ends (modelled over the ASCII
whitespace characters recognised by `Char.isWhitespace`). -/
def rust_trim (s : List Char) : List Char :=
  ((s.dropWhile Char.isWhitespace).reverse.dropWhile Char.isWhitespace).reverse

/-- `list.iter().any(|name| name.eq_ignore_ascii_case(s))`. -/
def server_match (names : List String) (s : List Char) : Bool :=
  names.any fun n => eq_ignore_ascii_case n.data s

/-- `get_region_from_server` (src/server/src/fflogs/client.rs lines 516-585):
trim, then test the four known world lists case-insensitively in order,
falling back to "NA". -/
def get_region_from_server (server : List Char) : String :=
  let s := rust_trim server
  if server_match jp_servers_flat s then "JP"
  else if server_match na_servers s then "NA"
  else if server_match eu_servers s then "EU"
  else if server_match oce_servers s then "OC"
  else "NA"

/-- Dropping a leading whitespace character does not change the trim. -/
lemma rust_trim_cons (c : Char) (s : List Char) (h : c.isWhitespace = true) :
    rust_trim (c :: s) = rust_trim s := by
  simp [rust_trim, List.dropWhile_cons, h]

/-- Dropping a trailing whitespace character does not change the trim. -/
lemma rust_trim_append (c : Char) (s : List Char) (h : c.isWhitespace = true) :
    rust_trim (s ++ [c]) = rust_trim s := by
  unfold rust_trim
  rw [List.dropWhile_append]
  by_cases he : (s.dropWhile Char.isWhitespace).isEmpty
  · rw [if_pos he, List.isEmpty_iff.1 he]
    simp [List.dropWhile_cons, h]
  · rw [if_neg he, List.reverse_append]
    simp [List.dropWhile_cons, h]

/-- C10: region resolution is total and closed over the four region strings;
it is invariant under surrounding whitespace; any trimmed input matching a JP
world name ignoring ASCII case resolves to "JP"; and any input matching none
of the four world lists resolves to the "NA" fallback. -/
theorem region_resolution_spec (server : List Char) :
    (get_region_from_server server = "JP" ∨ get_region_from_server server = "NA"
      ∨ get_region_from_server server = "EU" ∨ get_region_from_server server = "OC")
    ∧ (∀ c : Char, c.isWhitespace = true →
        get_region_from_server (c :: server) = get_region_from_server server
        ∧ get_region_from_server (server ++ [c]) = get_region_from_server server)
    ∧ (server_match jp_servers_flat (rust_trim server) = true →
        get_region_from_server server = "JP")
    ∧ (server_match jp_servers_flat (rust_trim server) = false →
        server_match na_servers (rust_trim server) = false →
        server_match eu_servers (rust_trim server) = false →
        server_match oce_servers (rust_trim server) = false →
        get_region_from_server server = "NA") := by
  refine ⟨?_, ?_, ?_, ?_⟩
  · simp only [get_region_from_server]
    split
    · exact Or.inl rfl
    · split
      · exact Or.inr (Or.inl rfl)
      · split
        · exact Or.inr (Or.inr (Or.inl rfl))
        · split
          · exact Or.inr (Or.inr (Or.inr rfl))
          · exact Or.inr (Or.inl rfl)
  · intro c hc
    constructor
    · unfold get_region_from_server
      rw [rust_trim_cons c server hc]
    · unfold get_region_from_server
      rw [rust_trim_append c server hc]
  · intro h
    simp [get_region_from_server, h]
  · intro h1 h2 h3 h4
    simp [get_region_from_server, h1, h2, h3, h4]

/-- Witness for C10: " tonberry " resolves to "JP" through the JP clause
(case-insensitive after trimming), and "Chaos" (a data centre, not a world)
matches no list and falls back to "NA". -/
theorem region_resolution_witness :
    get_region_from_server (" tonberry ".data) = "JP"
    ∧ get_region_from_server ("Chaos".data) = "NA" :=
  ⟨(region_resolution_spec (" tonberry ".data)).2.2.1 (by decide),
   (region_resolution_spec ("Chaos".data)).2.2.2 (by decide) (by decide)
     (by decide) (by decide)⟩

end RPF
